import Mathlib

/-!
Shallow embedding of the connection-management core of `chat-p2p`
(`src/server.rs`), a single-process TCP chat host.

Modelling choices:
* Rust `String` values (both message texts and the result of decoding the
  read buffer) are represented as lists of Unicode code points (`List Nat`).
* The `HashMap<usize, (TcpStream, Vec<String>)>` behind the mutex is
  represented as an association list with insert-overwrite semantics; under
  the event loop's usage the keys are distinct, so its length models
  `HashMap::len`.
* A `TcpStream` is opaque to the registry logic; it is represented by an
  abstract stream identifier.  The outcomes of the socket I/O calls
  (`write_all` succeeding or failing, `read` returning bytes or an error)
  are inputs to the corresponding operations.
* A Rust panic (an `unwrap`/`expect` firing) is represented by `none`:
  an operation returning `Option ServerState` produces `none` exactly when
  the original code panics.
-/

/-- A Rust string: a sequence of Unicode scalar values. -/
abbrev RStr := List Nat

/-- One connection record: the pair `(TcpStream, Vec<String>)` stored in the
map, with the stream abstracted to an identifier. -/
structure ConnRecord where
  stream : Nat
  messages : List RStr
deriving DecidableEq, Repr

/-- The map `HashMap<usize, (TcpStream, Vec<String>)>` as an association
list from connection token to record. -/
abbrev Registry := List (Nat × ConnRecord)

/-- `HashMap::get` / `get_mut`: first entry with the given key. -/
def lookupReg : Registry → Nat → Option ConnRecord
  | [], _ => none
  | (k', v) :: rest, k => if k' = k then some v else lookupReg rest k

/-- `HashMap::insert` (also models in-place mutation through `get_mut`):
overwrite the entry at the key if present, else add it. -/
def insertReg : Registry → Nat → ConnRecord → Registry
  | [], k, v => [(k, v)]
  | (k', v') :: rest, k, v =>
    if k' = k then (k, v) :: rest else (k', v') :: insertReg rest k v

/-- The state owned by `Server` that the claims are about: the shared
connection map plus the event loop's `socket_index` counter.
(`SERVER = Token(0)` is the listening socket's token; `socket_index`
starts at 1.) -/
structure ServerState where
  connections : Registry
  socket_index : Nat
deriving DecidableEq, Repr

/-- The state at process start: empty map, `socket_index = 1`. -/
def initialState : ServerState := ⟨[], 1⟩

/-- `Server::number_of_connections`: `connections.lock().unwrap().len()`. -/
def number_of_connections (s : ServerState) : Nat :=
  s.connections.length

/-- `Server::get_messages`: `conns.get(&chat_token).map(|(_, m)| m.to_owned())`. -/
def get_messages (s : ServerState) (chat_token : Nat) : Option (List RStr) :=
  (lookupReg s.connections chat_token).map (fun r => r.messages)

/-- `Server::send_message`.  `writeOk` is the outcome of
`stream.write_all(message.as_bytes())`.  The source unwraps the map lookup
(`conns.get_mut(&chat_token).unwrap()`), so a missing token is a panic
(`none`).  On a successful write the message is pushed onto the log; on a
failed write nothing happens. -/
def send_message (s : ServerState) (chat_token : Nat) (message : RStr)
    (writeOk : Bool) : Option ServerState :=
  match lookupReg s.connections chat_token with
  | none => none
  | some r =>
    if writeOk then
      some ⟨insertReg s.connections chat_token ⟨r.stream, r.messages ++ [message]⟩,
        s.socket_index⟩
    else
      some s

/-- `true` iff `b` is a UTF-8 continuation byte (`0x80..=0xBF`). -/
def isCont (b : Nat) : Bool := 128 ≤ b && b ≤ 191

/-- `String::from_utf8` on a byte sequence: strict UTF-8 validation and
decoding to code points (`none` = `Err(FromUtf8Error)`).  Follows the
standard table: rejects bytes `0x80..=0xC1` and `0xF5..`, overlong
encodings, surrogates (`0xED A0..` ), and values above `0x10FFFF`. -/
def utf8Decode : List Nat → Option (List Nat)
  | [] => some []
  | b :: rest =>
    if b < 128 then
      (utf8Decode rest).map (fun cs => b :: cs)
    else if b < 194 then none
    else if b ≤ 223 then
      match rest with
      | b2 :: rest2 =>
        if isCont b2 then
          (utf8Decode rest2).map (fun cs => ((b - 192) * 64 + (b2 - 128)) :: cs)
        else none
      | [] => none
    else if b ≤ 239 then
      match rest with
      | b2 :: b3 :: rest3 =>
        if (if b = 224 then decide (160 ≤ b2) && decide (b2 ≤ 191)
            else if b = 237 then decide (128 ≤ b2) && decide (b2 ≤ 159)
            else isCont b2) && isCont b3 then
          (utf8Decode rest3).map
            (fun cs => ((b - 224) * 4096 + (b2 - 128) * 64 + (b3 - 128)) :: cs)
        else none
      | _ => none
    else if b ≤ 244 then
      match rest with
      | b2 :: b3 :: b4 :: rest4 =>
        if (if b = 240 then decide (144 ≤ b2) && decide (b2 ≤ 191)
            else if b = 244 then decide (128 ≤ b2) && decide (b2 ≤ 143)
            else isCont b2) && isCont b3 && isCont b4 then
          (utf8Decode rest4).map
            (fun cs =>
              ((b - 240) * 262144 + (b2 - 128) * 4096 + (b3 - 128) * 64
                + (b4 - 128)) :: cs)
        else none
      | _ => none
    else none

/-- `trim_end_matches(char::from(0))`: drop every trailing NUL code point. -/
def trimNul (s : List Nat) : List Nat :=
  (s.reverse.dropWhile (fun c => c = 0)).reverse

/-- The 512-byte read buffer `[0u8; 512]` after `read` has placed `bs` in
its prefix: the received bytes followed by the remaining zero padding. -/
def pad512 (bs : List Nat) : List Nat :=
  bs ++ List.replicate (512 - bs.length) 0

/-- Outcome of `stream.read(&mut buf)`: `ok bs` is `Ok(n)` with `bs` the
`n` bytes placed in the buffer (`n = 0` is a clean EOF, with `bs = []`),
`err` is `Err(e)`. -/
inductive ReadResult where
  | ok (bs : List Nat)
  | err
deriving DecidableEq, Repr

/-- The `Token(n)` arm of the event loop for a readable event: unwrap the
map lookup (panic if missing), read into the zeroed 512-byte buffer; on
`Ok(_)` — including `Ok(0)` — decode the whole buffer with
`String::from_utf8(..).unwrap()` (panic on invalid UTF-8), trim trailing
NULs and push the result onto the log; on `Err(_)` do nothing. -/
def handle_read (s : ServerState) (n : Nat) (res : ReadResult) :
    Option ServerState :=
  match lookupReg s.connections n with
  | none => none
  | some r =>
    match res with
    | .err => some s
    | .ok bs =>
      match utf8Decode (pad512 bs) with
      | none => none
      | some str =>
        some ⟨insertReg s.connections n ⟨r.stream, r.messages ++ [trimNul str]⟩,
          s.socket_index⟩

/-- The `SERVER` (Token 0) arm of the event loop: accept a connection,
register its stream under `Token(socket_index)`, insert
`(socket_index, (stream, Vec::new()))` into the map, then increment
`socket_index`. -/
def accept_conn (s : ServerState) (streamId : Nat) : ServerState :=
  { connections := insertReg s.connections s.socket_index ⟨streamId, []⟩,
    socket_index := s.socket_index + 1 }

/-- One externally visible state-mutating event: an accept dispatched to
the listening token, a readable event on a connection token, or a
`send_message` call from the consumer thread. -/
inductive Event where
  | accept (streamId : Nat)
  | read (tok : Nat) (res : ReadResult)
  | sendOp (tok : Nat) (msg : RStr) (writeOk : Bool)
deriving DecidableEq, Repr

/-- Dispatch of one event (`none` = the corresponding code panics). -/
def step (s : ServerState) (e : Event) : Option ServerState :=
  match e with
  | .accept sid => some (accept_conn s sid)
  | .read tok res => handle_read s tok res
  | .sendOp tok msg ok => send_message s tok msg ok

/-- Run a sequence of events, stopping at the first panic. -/
def runEvents : ServerState → List Event → Option ServerState
  | s, [] => some s
  | s, e :: es =>
    match step s e with
    | none => none
    | some s' => runEvents s' es

/-- The connection identities assigned by the accepts in an event
sequence, in order, up to the first panic. -/
def acceptedTokens (s : ServerState) : List Event → List Nat
  | [] => []
  | e :: es =>
    match step s e with
    | none => []
    | some s' =>
      match e with
      | .accept _ => s.socket_index :: acceptedTokens s' es
      | _ => acceptedTokens s' es

set_option maxRecDepth 8000

/-! ### Registry lemmas -/

theorem lookup_insert_self (r : Registry) (k : Nat) (v : ConnRecord) :
    lookupReg (insertReg r k v) k = some v := by
  induction r with
  | nil => simp [insertReg, lookupReg]
  | cons p rest ih =>
    by_cases h : p.1 = k
    · simp [insertReg, lookupReg, h]
    · simp [insertReg, lookupReg, h, ih]

theorem lookup_insert_ne (r : Registry) (k k' : Nat) (v : ConnRecord)
    (h : k' ≠ k) : lookupReg (insertReg r k v) k' = lookupReg r k' := by
  have hk : ¬ (k = k') := fun he => h he.symm
  induction r with
  | nil => simp [insertReg, lookupReg, hk]
  | cons p rest ih =>
    obtain ⟨pk, pv⟩ := p
    by_cases hp : pk = k
    · subst hp
      simp [insertReg, lookupReg, hk]
    · simp [insertReg, lookupReg, hp, ih]

theorem length_le_insertReg (r : Registry) (k : Nat) (v : ConnRecord) :
    r.length ≤ (insertReg r k v).length := by
  induction r with
  | nil => simp [insertReg]
  | cons p rest ih =>
    by_cases h : p.1 = k
    · simp [insertReg, h]
    · simpa [insertReg, h] using ih

theorem isSome_lookup_insertReg (r : Registry) (k k' : Nat) (v : ConnRecord)
    (h : (lookupReg r k').isSome) :
    (lookupReg (insertReg r k v) k').isSome := by
  by_cases he : k' = k
  · subst he; simp [lookup_insert_self]
  · rwa [lookup_insert_ne r k k' v he]

/-! ### Shape lemmas: what each operation can do to the state -/

theorem send_message_cases {s : ServerState} {tok : Nat} {msg : RStr}
    {ok : Bool} {s' : ServerState} (h : send_message s tok msg ok = some s') :
    s' = s ∨ ∃ r, lookupReg s.connections tok = some r ∧ ok = true ∧
      s' = ⟨insertReg s.connections tok ⟨r.stream, r.messages ++ [msg]⟩,
        s.socket_index⟩ := by
  unfold send_message at h
  cases hl : lookupReg s.connections tok <;> rw [hl] at h
  · exact absurd h (by simp)
  · cases ok with
    | false => left; simpa using h.symm
    | true =>
      right
      exact ⟨_, rfl, rfl, by simpa using h.symm⟩

theorem handle_read_cases {s : ServerState} {n : Nat} {res : ReadResult}
    {s' : ServerState} (h : handle_read s n res = some s') :
    s' = s ∨ ∃ r bs str, lookupReg s.connections n = some r ∧
      res = ReadResult.ok bs ∧ utf8Decode (pad512 bs) = some str ∧
      s' = ⟨insertReg s.connections n ⟨r.stream, r.messages ++ [trimNul str]⟩,
        s.socket_index⟩ := by
  unfold handle_read at h
  cases hl : lookupReg s.connections n <;> rw [hl] at h <;> dsimp only at h
  · exact absurd h (by simp)
  · cases res with
    | err => left; exact (Option.some.inj h).symm
    | ok bs =>
      dsimp only at h
      cases hd : utf8Decode (pad512 bs) <;> rw [hd] at h <;> dsimp only at h
      · exact absurd h (by simp)
      · right
        exact ⟨_, bs, _, rfl, rfl, hd, (Option.some.inj h).symm⟩

theorem step_cases {s : ServerState} {e : Event} {s' : ServerState}
    (h : step s e = some s') :
    s' = s ∨
    (∃ sid, e = Event.accept sid ∧
      s' = ⟨insertReg s.connections s.socket_index ⟨sid, []⟩,
        s.socket_index + 1⟩) ∨
    ∃ k r, s'.connections = insertReg s.connections k r ∧
      s'.socket_index = s.socket_index := by
  cases e with
  | accept sid =>
    right; left
    exact ⟨sid, rfl, (Option.some.inj h).symm⟩
  | read tok res =>
    rcases handle_read_cases h with h1 | ⟨r, bs, str, _, _, _, h4⟩
    · exact Or.inl h1
    · exact Or.inr (Or.inr ⟨tok, _, by rw [h4], by rw [h4]⟩)
  | sendOp tok msg ok =>
    rcases send_message_cases h with h1 | ⟨r, _, _, h4⟩
    · exact Or.inl h1
    · exact Or.inr (Or.inr ⟨tok, _, by rw [h4], by rw [h4]⟩)

/-! ### Claims C1 - C4: error handling the spec requires but the code lacks -/

/-- C1: the spec requires `send` to an identity not present in the Registry
to return a typed `UnknownConnection` error without aborting.  The code
instead unwraps the failed lookup (`conns.get_mut(&chat_token).unwrap()`)
and panics: for every state in which the token is absent, `send_message`
aborts (modelled as `none`) rather than returning an error value. -/
theorem send_message_unknown_token_panics (s : ServerState) (tok : Nat)
    (msg : RStr) (writeOk : Bool) (h : lookupReg s.connections tok = none) :
    send_message s tok msg writeOk = none := by
  unfold send_message
  rw [h]

theorem send_message_unknown_token_panics_witness :
    send_message initialState 1 [104, 105] true = none :=
  send_message_unknown_token_panics initialState 1 [104, 105] true rfl

/-- C2: the spec requires invalid UTF-8 on a connection to be dropped
without crashing the loop.  The code calls
`String::from_utf8(buf.to_vec()).unwrap()`, so a single `0xFF` byte
received on a live connection panics the event-loop thread (modelled as
`none`) instead of dropping the chunk. -/
theorem read_invalid_utf8_panics :
    handle_read ⟨[(1, ⟨7, [[104]]⟩)], 2⟩ 1 (ReadResult.ok [255]) = none := rfl

/-- C3: the spec requires a 0-byte read (clean EOF) or an I/O error to
deregister the socket and remove the identity from the Registry.  The code
removes nothing: on `Ok(0)` it even appends a (trimmed-to-empty) entry to
the log and keeps the connection, and on `Err(_)` it leaves the state
untouched, so `number_of_connections`/`get_messages` still reflect the
closed connection. -/
theorem read_eof_or_error_keeps_connection :
    handle_read ⟨[(1, ⟨7, []⟩)], 2⟩ 1 (ReadResult.ok [])
        = some ⟨[(1, ⟨7, [[]]⟩)], 2⟩ ∧
    handle_read ⟨[(1, ⟨7, []⟩)], 2⟩ 1 ReadResult.err
        = some ⟨[(1, ⟨7, []⟩)], 2⟩ ∧
    number_of_connections ⟨[(1, ⟨7, [[]]⟩)], 2⟩ = 1 ∧
    get_messages ⟨[(1, ⟨7, [[]]⟩)], 2⟩ 1 = some [[]] :=
  ⟨by decide, rfl, rfl, rfl⟩

/-- C4: the spec requires a `send` whose socket write fails to remove the
identity from the Registry, making subsequent `send`/`history` calls fail.
The code only skips the log append: the state is returned completely
unchanged, so the record stays in the Registry and a subsequent
`get_messages` still succeeds. -/
theorem send_write_failure_keeps_record :
    send_message ⟨[(1, ⟨7, [[104]]⟩)], 2⟩ 1 [104, 105] false
        = some ⟨[(1, ⟨7, [[104]]⟩)], 2⟩ ∧
    get_messages ⟨[(1, ⟨7, [[104]]⟩)], 2⟩ 1 = some [[104]] :=
  ⟨rfl, rfl⟩

/-! ### Claim C5: identity assignment -/

theorem acceptedTokens_eq_range (es : List Event) : ∀ s : ServerState,
    acceptedTokens s es
      = List.range' s.socket_index (acceptedTokens s es).length := by
  induction es with
  | nil => intro s; rfl
  | cons e es ih =>
    intro s
    cases e with
    | accept sid =>
      have hu : acceptedTokens s (Event.accept sid :: es)
          = s.socket_index :: acceptedTokens (accept_conn s sid) es := rfl
      rw [hu, ih (accept_conn s sid)]
      have hsi : (accept_conn s sid).socket_index = s.socket_index + 1 := rfl
      rw [hsi]
      simp [List.range'_succ]
    | read tok res =>
      cases h : handle_read s tok res with
      | none => simp [acceptedTokens, step, h]
      | some s' =>
        have hu : acceptedTokens s (Event.read tok res :: es)
            = acceptedTokens s' es := by
          simp [acceptedTokens, step, h]
        have hsi : s'.socket_index = s.socket_index := by
          rcases handle_read_cases h with h1 | ⟨r, bs, str, _, _, _, h4⟩
          · rw [h1]
          · rw [h4]
        rw [hu, ih s', hsi]
        simp
    | sendOp tok msg ok =>
      cases h : send_message s tok msg ok with
      | none => simp [acceptedTokens, step, h]
      | some s' =>
        have hu : acceptedTokens s (Event.sendOp tok msg ok :: es)
            = acceptedTokens s' es := by
          simp [acceptedTokens, step, h]
        have hsi : s'.socket_index = s.socket_index := by
          rcases send_message_cases h with h1 | ⟨r, _, _, h4⟩
          · rw [h1]
          · rw [h4]
        rw [hu, ih s', hsi]
        simp

/-- C5: over any event sequence from process start, the identities
assigned by the successful accepts are exactly `1, 2, 3, ...`: strictly
increasing, starting at 1 (token 0 being the listening socket's), and
never reused (no duplicates), even after connections stop being read. -/
theorem accepted_identities_strictly_increasing (es : List Event) :
    acceptedTokens initialState es
      = List.range' 1 (acceptedTokens initialState es).length ∧
    List.Chain' (· < ·) (acceptedTokens initialState es) ∧
    (acceptedTokens initialState es).Nodup ∧
    (acceptedTokens initialState es ≠ [] →
      (acceptedTokens initialState es).head? = some 1) := by
  have h := acceptedTokens_eq_range es initialState
  refine ⟨h, ?_, ?_, ?_⟩
  · rw [h]
    exact (List.pairwise_lt_range' 1 _).chain'
  · rw [h]
    exact List.nodup_range' 1 _
  · intro hne
    rw [h] at hne ⊢
    rcases hn : (acceptedTokens initialState es).length with _ | k
    · rw [hn] at hne; simp at hne
    · rw [List.range'_succ]
      rfl

theorem accepted_identities_strictly_increasing_witness :
    acceptedTokens initialState [Event.accept 7, Event.accept 8]
      = List.range' 1
          (acceptedTokens initialState [Event.accept 7, Event.accept 8]).length :=
  (accepted_identities_strictly_increasing [Event.accept 7, Event.accept 8]).1

/-! ### Claims C6, C7: send/history functional behaviour -/

/-- C6: for an identity present in the Registry, `send_message` appends the
message to that identity's log exactly when the socket write succeeds: a
successful write appends exactly the one entry `msg`, and a failed write
returns the state unchanged (no entry appended). -/
theorem send_message_appends_iff_write_ok (s : ServerState) (tok : Nat)
    (r : ConnRecord) (msg : RStr) (h : lookupReg s.connections tok = some r) :
    send_message s tok msg true
        = some ⟨insertReg s.connections tok ⟨r.stream, r.messages ++ [msg]⟩,
            s.socket_index⟩ ∧
    get_messages ⟨insertReg s.connections tok ⟨r.stream, r.messages ++ [msg]⟩,
        s.socket_index⟩ tok = some (r.messages ++ [msg]) ∧
    send_message s tok msg false = some s := by
  refine ⟨?_, ?_, ?_⟩
  · unfold send_message; rw [h]; rfl
  · simp [get_messages, lookup_insert_self]
  · unfold send_message; rw [h]; rfl

theorem send_message_appends_iff_write_ok_witness :
    send_message ⟨[(1, ⟨7, []⟩)], 2⟩ 1 [104] true
        = some ⟨insertReg [(1, ⟨7, []⟩)] 1 ⟨7, [] ++ [[104]]⟩, 2⟩ ∧
    get_messages ⟨insertReg [(1, ⟨7, []⟩)] 1 ⟨7, [] ++ [[104]]⟩, 2⟩ 1
        = some ([] ++ [[104]]) ∧
    send_message ⟨[(1, ⟨7, []⟩)], 2⟩ 1 [104] false = some ⟨[(1, ⟨7, []⟩)], 2⟩ :=
  send_message_appends_iff_write_ok ⟨[(1, ⟨7, []⟩)], 2⟩ 1 ⟨7, []⟩ [104] rfl

/-- C7: `get_messages` returns the stored message log (a copy, by value)
for a present identity and `none` for an unknown identity; being a pure
read under the lock, it leaves the state untouched. -/
theorem get_messages_returns_copy_or_none (s : ServerState) (tok : Nat) :
    (∀ r : ConnRecord, lookupReg s.connections tok = some r →
        get_messages s tok = some r.messages) ∧
    (lookupReg s.connections tok = none → get_messages s tok = none) := by
  constructor
  · intro r h; unfold get_messages; rw [h]; rfl
  · intro h; unfold get_messages; rw [h]; rfl

theorem get_messages_returns_copy_or_none_witness :
    get_messages ⟨[(1, ⟨7, [[104]]⟩)], 2⟩ 1
        = some (⟨7, [[104]]⟩ : ConnRecord).messages ∧
    get_messages ⟨[(1, ⟨7, [[104]]⟩)], 2⟩ 2 = none :=
  ⟨(get_messages_returns_copy_or_none ⟨[(1, ⟨7, [[104]]⟩)], 2⟩ 1).1 ⟨7, [[104]]⟩ rfl,
   (get_messages_returns_copy_or_none ⟨[(1, ⟨7, [[104]]⟩)], 2⟩ 2).2 rfl⟩

/-! ### Claim C9: the connection map only ever grows -/

/-- C9: no operation of the implementation removes a map entry: every
non-panicking step (accept, inbound read, send) leaves the identities
present before still present after, and `number_of_connections` never
decreases.  (The pure reads `get_messages`/`number_of_connections` do not
change the state at all.) -/
theorem step_never_removes_connections (s : ServerState) (e : Event)
    (s' : ServerState) (h : step s e = some s') :
    number_of_connections s ≤ number_of_connections s' ∧
    ∀ k, (lookupReg s.connections k).isSome →
      (lookupReg s'.connections k).isSome := by
  rcases step_cases h with h1 | ⟨sid, he, h1⟩ | ⟨k0, r0, hc, _⟩
  · subst h1; exact ⟨le_refl _, fun k hk => hk⟩
  · subst h1
    exact ⟨length_le_insertReg s.connections s.socket_index _,
      fun k hk => isSome_lookup_insertReg _ _ _ _ hk⟩
  · constructor
    · show s.connections.length ≤ s'.connections.length
      rw [hc]
      exact length_le_insertReg s.connections k0 r0
    · intro k hk
      rw [hc]
      exact isSome_lookup_insertReg _ _ _ _ hk

theorem step_never_removes_connections_witness :
    number_of_connections initialState
        ≤ number_of_connections ⟨[(1, ⟨7, []⟩)], 2⟩ ∧
    ∀ k, (lookupReg initialState.connections k).isSome →
      (lookupReg (⟨[(1, ⟨7, []⟩)], 2⟩ : ServerState).connections k).isSome :=
  step_never_removes_connections initialState (Event.accept 7)
    ⟨[(1, ⟨7, []⟩)], 2⟩ rfl

/-! ### Claim C10: inbound entries are the decoded buffer with trailing
NULs stripped -/

/-- C10: a successful inbound read stores exactly the UTF-8 decoding of
the whole zero-padded 512-byte buffer with all trailing NUL characters
stripped — so a payload whose own content ends in NUL bytes is stored
truncated, indistinguishable from the buffer padding. -/
theorem inbound_entry_is_decoded_buffer_trimmed (s : ServerState) (tok : Nat)
    (r : ConnRecord) (bs : List Nat) (str : List Nat)
    (hlen : bs.length ≤ 512)
    (h : lookupReg s.connections tok = some r)
    (hdec : utf8Decode (pad512 bs) = some str) :
    handle_read s tok (ReadResult.ok bs)
      = some ⟨insertReg s.connections tok ⟨r.stream, r.messages ++ [trimNul str]⟩,
          s.socket_index⟩ := by
  unfold handle_read
  rw [h]
  dsimp only
  rw [hdec]

theorem inbound_entry_is_decoded_buffer_trimmed_witness :
    handle_read ⟨[(1, ⟨7, []⟩)], 2⟩ 1 (ReadResult.ok [104, 105, 0, 0])
      = some ⟨[(1, ⟨7, [[104, 105]]⟩)], 2⟩ := by
  have h := inbound_entry_is_decoded_buffer_trimmed ⟨[(1, ⟨7, []⟩)], 2⟩ 1 ⟨7, []⟩
      [104, 105, 0, 0] ([104, 105] ++ List.replicate 510 0) (by decide) rfl (by decide)
  rw [h]
  decide

/-! ### Claim C8: the log after n interleaved successful appends -/

/-- One log-mutating call for a fixed identity: an inbound chunk recorded
by the event loop (`record_inbound`, i.e. a readable event delivering
`bs`), or an outbound `send_message` whose write succeeds. -/
inductive LogOp where
  | inbound (bs : List Nat)
  | outbound (msg : RStr)
deriving DecidableEq, Repr

/-- The event a `LogOp` corresponds to, in lock-acquisition order. -/
def opEvent (tok : Nat) : LogOp → Event
  | .inbound bs => Event.read tok (ReadResult.ok bs)
  | .outbound msg => Event.sendOp tok msg true

/-- The entry a `LogOp` appends to the log (`none` if the inbound chunk
does not decode, in which case the call is not "successful"). -/
def logEntry : LogOp → Option RStr
  | .inbound bs => (utf8Decode (pad512 bs)).map trimNul
  | .outbound msg => some msg

theorem length_filterMap_all_isSome {α β : Type} (f : α → Option β)
    (l : List α) (h : ∀ a ∈ l, (f a).isSome) :
    (l.filterMap f).length = l.length := by
  induction l with
  | nil => rfl
  | cons a l ih =>
    obtain ⟨b, hb⟩ := Option.isSome_iff_exists.mp (h a (List.mem_cons_self a l))
    rw [List.filterMap_cons, hb]
    simp [ih (fun x hx => h x (List.mem_cons_of_mem a hx))]

theorem runEvents_logOps (tok : Nat) (ops : List LogOp) :
    ∀ (s : ServerState) (sid : Nat) (l : List RStr),
    lookupReg s.connections tok = some ⟨sid, l⟩ →
    (∀ op ∈ ops, (logEntry op).isSome) →
    ∃ s' : ServerState,
      runEvents s (ops.map (opEvent tok)) = some s' ∧
      get_messages s' tok = some (l ++ ops.filterMap logEntry) := by
  induction ops with
  | nil =>
    intro s sid l h _
    exact ⟨s, rfl, by unfold get_messages; rw [h]; simp⟩
  | cons op ops ih =>
    intro s sid l h hall
    have htail : ∀ x ∈ ops, (logEntry x).isSome :=
      fun x hx => hall x (List.mem_cons_of_mem op hx)
    cases op with
    | outbound msg =>
      have hstep : step s (opEvent tok (LogOp.outbound msg))
          = some ⟨insertReg s.connections tok ⟨sid, l ++ [msg]⟩,
              s.socket_index⟩ := by
        show send_message s tok msg true = _
        unfold send_message
        rw [h]
        rfl
      have hlook : lookupReg
          (insertReg s.connections tok (⟨sid, l ++ [msg]⟩ : ConnRecord)) tok
          = some ⟨sid, l ++ [msg]⟩ :=
        lookup_insert_self s.connections tok _
      obtain ⟨s', hrun, hmsg⟩ :=
        ih ⟨insertReg s.connections tok ⟨sid, l ++ [msg]⟩, s.socket_index⟩
          sid (l ++ [msg]) hlook htail
      refine ⟨s', ?_, ?_⟩
      · show runEvents s (opEvent tok (LogOp.outbound msg)
            :: ops.map (opEvent tok)) = some s'
        unfold runEvents
        rw [hstep]
        exact hrun
      · rw [hmsg]
        simp [logEntry, List.filterMap_cons]
    | inbound bs =>
      obtain ⟨entry, hentry⟩ := Option.isSome_iff_exists.mp
        (hall (LogOp.inbound bs) (List.mem_cons_self _ _))
      obtain ⟨str, hstr, htrim⟩ := Option.map_eq_some'.mp hentry
      have hstep : step s (opEvent tok (LogOp.inbound bs))
          = some ⟨insertReg s.connections tok ⟨sid, l ++ [trimNul str]⟩,
              s.socket_index⟩ := by
        show handle_read s tok (ReadResult.ok bs) = _
        unfold handle_read
        rw [h]
        dsimp only
        rw [hstr]
      have hlook : lookupReg
          (insertReg s.connections tok (⟨sid, l ++ [trimNul str]⟩ : ConnRecord))
          tok = some ⟨sid, l ++ [trimNul str]⟩ :=
        lookup_insert_self s.connections tok _
      obtain ⟨s', hrun, hmsg⟩ :=
        ih ⟨insertReg s.connections tok ⟨sid, l ++ [trimNul str]⟩,
            s.socket_index⟩ sid (l ++ [trimNul str]) hlook htail
      refine ⟨s', ?_, ?_⟩
      · show runEvents s (opEvent tok (LogOp.inbound bs)
            :: ops.map (opEvent tok)) = some s'
        unfold runEvents
        rw [hstep]
        exact hrun
      · rw [hmsg]
        simp [List.filterMap_cons, hentry, htrim]

/-- C8: for an identity whose log starts empty, running any interleaving
of `n` successful log-appending calls for it (inbound reads recorded by
the loop and successful sends), in lock-acquisition order, leaves
`get_messages` returning exactly the `n` appended entries in that order —
in particular the log's length is exactly `n`. -/
theorem history_after_n_successful_ops (tok : Nat) (ops : List LogOp)
    (s : ServerState) (sid : Nat)
    (h : lookupReg s.connections tok = some ⟨sid, []⟩)
    (hall : ∀ op ∈ ops, (logEntry op).isSome) :
    ∃ s' : ServerState,
      runEvents s (ops.map (opEvent tok)) = some s' ∧
      get_messages s' tok = some (ops.filterMap logEntry) ∧
      (ops.filterMap logEntry).length = ops.length := by
  obtain ⟨s', hrun, hmsg⟩ := runEvents_logOps tok ops s sid [] h hall
  exact ⟨s', hrun, by simpa using hmsg,
    length_filterMap_all_isSome logEntry ops hall⟩

theorem history_after_n_successful_ops_witness :
    ∃ s' : ServerState,
      runEvents ⟨[(1, ⟨7, []⟩)], 2⟩
          ([LogOp.inbound [104, 105], LogOp.outbound [104, 101, 121]].map
            (opEvent 1)) = some s' ∧
      get_messages s' 1
        = some ([LogOp.inbound [104, 105],
            LogOp.outbound [104, 101, 121]].filterMap logEntry) ∧
      ([LogOp.inbound [104, 105],
          LogOp.outbound [104, 101, 121]].filterMap logEntry).length
        = [LogOp.inbound [104, 105], LogOp.outbound [104, 101, 121]].length :=
  history_after_n_successful_ops 1
    [LogOp.inbound [104, 105], LogOp.outbound [104, 101, 121]]
    ⟨[(1, ⟨7, []⟩)], 2⟩ 7 rfl (by decide)
